import Mathlib

/-
Shallow embedding of the mdslides terminal slideshow program (src/main.rs).

Strings are modelled as `List Char`; a document is the list of its lines,
i.e. the result of Rust's `str::lines` on the file content.  Rust's
`String::replace` (all occurrences, leftmost, non-overlapping) is embedded
as `removeAll2` for the two-character patterns the program uses.  The three
regex stages of `Slide::formatted_content` are embedded one by one:
`Regex::replace` replaces only the leftmost-first match, so the stage for
the pattern matching two or more newlines is `collapseFirst`, which rewrites
only the first such run.  The interactive `main` loop is embedded as a
function of a script of per-iteration outcomes, producing the trace of
terminal-session actions together with how the loop ended.
-/

def chs (s : String) : List Char := s.toList

def isWs (c : Char) : Bool := c == ' ' || c == '\t' || c == '\n' || c == '\r'

def trimLeft (l : List Char) : List Char := l.dropWhile isWs

def trimRight (l : List Char) : List Char := (l.reverse.dropWhile isWs).reverse

def trim (l : List Char) : List Char := trimLeft (trimRight l)

/-- Rust `s.replace(pat, "")` for a two-character pattern `[a, b]`:
removes every leftmost non-overlapping occurrence, scanning left to right. -/
def removeAll2 (a b : Char) : List Char → List Char
  | x :: y :: rest =>
    if x == a && y == b then removeAll2 a b rest
    else x :: removeAll2 a b (y :: rest)
  | l => l

/-- Whether the two-character pattern `[a, b]` occurs somewhere in the list. -/
def containsPat2 (a b : Char) : List Char → Bool
  | x :: y :: rest => (x == a && y == b) || containsPat2 a b (y :: rest)
  | _ => false

/-- Rust `Vec::join("\n")`. -/
def joinNl : List (List Char) → List Char
  | [] => []
  | [l] => l
  | l :: r => l ++ '\n' :: joinNl r

/-- Stage for the anchored leading-newline regex replaced (first match) by
the empty string: strips the maximal leading run of newlines. -/
def dropLeadingNl (l : List Char) : List Char := l.dropWhile (fun c => c == '\n')

/-- Stage for the end-anchored newline-run regex replaced (first match) by
the empty string: strips the maximal trailing run of newlines. -/
def dropTrailingNl (l : List Char) : List Char :=
  (l.reverse.dropWhile (fun c => c == '\n')).reverse

/-- Stage for the regex matching two or more consecutive newlines, replaced
via `Regex::replace`, which rewrites only the leftmost-first match: the
first run of two or more newlines becomes exactly two newlines and the rest
of the text is left untouched. -/
def collapseFirst : List Char → List Char
  | [] => []
  | [c] => [c]
  | c :: c2 :: rest =>
    if c == '\n' && c2 == '\n' then
      '\n' :: '\n' :: rest.dropWhile (fun x => x == '\n')
    else c :: collapseFirst (c2 :: rest)

/-- Whether the text contains two adjacent newline characters. -/
def hasDoubleNl : List Char → Bool
  | c :: c2 :: rest => (c == '\n' && c2 == '\n') || hasDoubleNl (c2 :: rest)
  | _ => false

/-- Whether the last character is a newline. -/
def endsNl : List Char → Bool
  | [] => false
  | [c] => c == '\n'
  | _ :: c2 :: rest => endsNl (c2 :: rest)

/-- Whether the first character is a newline. -/
def headNl : List Char → Bool
  | [] => false
  | c :: _ => c == '\n'

/-- Split on newline characters, keeping empty segments. -/
def splitOnNl : List Char → List (List Char)
  | [] => [[]]
  | c :: rest =>
    if c == '\n' then [] :: splitOnNl rest
    else
      match splitOnNl rest with
      | [] => [[c]]
      | l :: ls => (c :: l) :: ls

/-- Rust `str::lines`: the empty string yields no lines and a trailing
newline yields no final empty line. -/
def rustLines (s : List Char) : List (List Char) :=
  match s with
  | [] => []
  | _ =>
    if s.getLast? == some '\n' then (splitOnNl s).dropLast
    else splitOnNl s

/-- One rendered line of a slide, tagged with the style the program gives
it: verbatim sub-heading, bullet (a styled marker span plus the processed
remainder span), padded code line inside a fenced block, or plain text. -/
inductive StyledLine where
  | heading (text : List Char)
  | bullet (rest : List Char)
  | code (text : List Char)
  | plain (text : List Char)
deriving DecidableEq

/-- The text content of a rendered line: for a bullet, the two spans
concatenated; the other styles carry their text verbatim. -/
def textOf : StyledLine → List Char
  | StyledLine.heading t => t
  | StyledLine.bullet r => chs ("* ") ++ r
  | StyledLine.code t => t
  | StyledLine.plain t => t

/-- The per-line classification step of `Slide::formatted_content`: the
checks run in source order on the raw line (the heading check does not trim),
and a fence line flips the fenced-code flag and produces no output. -/
def classifyLine (line : List Char) (src : Bool) : Option StyledLine × Bool :=
  if List.isPrefixOf (chs ("##")) line then (some (StyledLine.heading line), src)
  else if List.isPrefixOf (chs ("* ")) (trim line) then
    (some (StyledLine.bullet (removeAll2 '*' ' ' (trim line))), src)
  else if List.isPrefixOf (chs ("```")) (trimRight line) then (none, !src)
  else if src then (some (StyledLine.code (' ' :: (line ++ [' ']))), src)
  else (some (StyledLine.plain line), src)

/-- Runs the classifier over the lines, threading the fenced-code flag and
dropping suppressed lines, exactly as the map-then-filter in the source. -/
def classifyAll : List (List Char) → Bool → List StyledLine
  | [], _ => []
  | l :: rest, src =>
    match classifyLine l src with
    | (some sl, src2) => sl :: classifyAll rest src2
    | (none, src2) => classifyAll rest src2

structure Slide where
  title : List Char
  content : List (List Char)
deriving DecidableEq

/-- `Slide::formatted_content`: join with newlines, strip leading and
trailing newline runs, rewrite the first run of two or more newlines to
exactly two, trim, re-split into lines and classify with the fenced-code
flag threaded from `false`. -/
def Slide.formatted_content (s : Slide) : List StyledLine :=
  classifyAll
    (rustLines (trim (collapseFirst (dropTrailingNl (dropLeadingNl (joinNl s.content))))))
    false

structure Presentation where
  title : List Char
  author : List Char
  date : List Char
  slides : List Slide
deriving DecidableEq

/-- Whether the line begins a slide, i.e. starts with a hash and a space. -/
def isHeader (l : List Char) : Bool := List.isPrefixOf (chs ("# ")) l

/-- Whether the line starts with a percent sign. -/
def leadPercent (l : List Char) : Bool := List.isPrefixOf ['%'] l

/-- The accumulator of the parsing loop in `Presentation::read`. -/
structure ReadState where
  title : List Char
  author : List Char
  date : List Char
  slides : List Slide
  slide_title : List Char
  slide_content : List (List Char)
deriving DecidableEq

/-- One iteration of the parsing loop of `Presentation::read`, at line
index `i`. -/
def readStep (i : Nat) (l : List Char) (st : ReadState) : ReadState :=
  if i == 0 && leadPercent l then { st with title := removeAll2 '%' ' ' l }
  else if i == 1 && leadPercent l then { st with author := removeAll2 '%' ' ' l }
  else if i == 2 && leadPercent l then { st with date := removeAll2 '%' ' ' l }
  else if isHeader l then
    if st.slide_title.isEmpty then { st with slide_title := l }
    else
      { st with
        slides := st.slides ++ [⟨st.slide_title, st.slide_content⟩],
        slide_title := l,
        slide_content := [] }
  else { st with slide_content := st.slide_content ++ [l] }

/-- The parsing loop of `Presentation::read` from line index `i`. -/
def readLines : Nat → List (List Char) → ReadState → ReadState
  | _, [], st => st
  | i, l :: rest, st => readLines (i + 1) rest (readStep i l st)

/-- `Presentation::read`, taking the document as its list of lines (the
result of `str::lines` on the file content; the file-read failure path of
the source returns an error before any parsing and is not modelled). -/
def Presentation.read (doc : List (List Char)) : Presentation :=
  let st := readLines 0 doc ⟨[], [], [], [], [], []⟩
  ⟨st.title, st.author, st.date,
    st.slides ++ [⟨st.slide_title, st.slide_content⟩]⟩

/-- The parsing step with the three positional metadata branches removed;
for line indices three and above `readStep` agrees with it. -/
def processStep (l : List Char) (st : ReadState) : ReadState :=
  if isHeader l then
    if st.slide_title.isEmpty then { st with slide_title := l }
    else
      { st with
        slides := st.slides ++ [⟨st.slide_title, st.slide_content⟩],
        slide_title := l,
        slide_content := [] }
  else { st with slide_content := st.slide_content ++ [l] }

def processLines : List (List Char) → ReadState → ReadState
  | [], st => st
  | l :: rest, st => processLines rest (processStep l st)

/-- The lines of the document that the parser does not consume as
metadata, starting from line index `i`: a line is metadata when its index
is below three and it starts with a percent sign. -/
def nonMetaFrom : Nat → List (List Char) → List (List Char)
  | _, [] => []
  | i, l :: rest =>
    if i < 3 && leadPercent l then nonMetaFrom (i + 1) rest
    else l :: nonMetaFrom (i + 1) rest

/-- The number of slide-header lines in the document. -/
def countHeaders (doc : List (List Char)) : Nat := (doc.filter isHeader).length

/-- The concrete lines of a list of header/body blocks. -/
def blocksLines (bs : List (List Char × List (List Char))) : List (List Char) :=
  (bs.map (fun b => b.1 :: b.2)).flatten

/-- The slides produced from an open slide (title `t`, content `c`)
followed by the remaining header/body blocks. -/
def slidesOf : List Char → List (List Char) → List (List Char × List (List Char)) → List Slide
  | t, c, [] => [⟨t, c⟩]
  | t, c, b :: bs => ⟨t, c⟩ :: slidesOf b.1 b.2 bs

inductive NavEvent where
  | stepBack
  | stepForward
deriving DecidableEq

/-- The arrow-key handling of the main loop: left is a checked subtraction
falling back to zero, right increments only strictly below the slide
count. -/
def navStep (n : Nat) (slide : Nat) : NavEvent → Nat
  | NavEvent.stepBack => slide - 1
  | NavEvent.stepForward => if slide < n then slide + 1 else slide

def navRun (n : Nat) (evs : List NavEvent) (start : Nat) : Nat :=
  evs.foldl (navStep n) start

/-- The terminal-session operations `main` performs, in order of
appearance in the source. -/
inductive TermAction where
  | enterAlt
  | enableRaw
  | clear
  | draw
  | leaveAlt
  | disableRaw
deriving DecidableEq

inductive Key where
  | esc
  | qKey
  | leftArrow
  | rightArrow
  | other
deriving DecidableEq

/-- The outcome of one iteration of the main loop: the draw call fails,
the poll or read fails, a key press arrives, or no event arrives within
the poll window. -/
inductive Tick where
  | drawFail
  | pollFail
  | key (k : Key)
  | noEvent
deriving DecidableEq

inductive MainResult where
  | quitOk
  | errExit
  | outOfScript
deriving DecidableEq

/-- The main loop of the program over a script of iteration outcomes,
accumulating the trace of terminal-session actions.  A failing draw or
poll propagates the error out of `main` at once, so the loop ends without
appending any further action; the two quit keys break out of the loop,
after which `main` leaves the alternate screen and disables raw mode. -/
def runLoop (n : Nat) : List Tick → Nat → List TermAction → List TermAction × MainResult
  | [], _, acc => (acc, MainResult.outOfScript)
  | t :: rest, slide, acc =>
    match t with
    | Tick.drawFail => (acc, MainResult.errExit)
    | Tick.pollFail => (acc ++ [TermAction.draw], MainResult.errExit)
    | Tick.noEvent => runLoop n rest slide (acc ++ [TermAction.draw])
    | Tick.key k =>
      match k with
      | Key.esc =>
        (acc ++ [TermAction.draw, TermAction.leaveAlt, TermAction.disableRaw],
          MainResult.quitOk)
      | Key.qKey =>
        (acc ++ [TermAction.draw, TermAction.leaveAlt, TermAction.disableRaw],
          MainResult.quitOk)
      | Key.leftArrow =>
        runLoop n rest (navStep n slide NavEvent.stepBack) (acc ++ [TermAction.draw])
      | Key.rightArrow =>
        runLoop n rest (navStep n slide NavEvent.stepForward) (acc ++ [TermAction.draw])
      | Key.other => runLoop n rest slide (acc ++ [TermAction.draw])

/-- `main` after a successful `Presentation::read` with `n` slides: enter
the alternate screen, enable raw mode, clear, then run the loop from slide
index zero. -/
def runMain (n : Nat) (script : List Tick) : List TermAction × MainResult :=
  runLoop n script 0 [TermAction.enterAlt, TermAction.enableRaw, TermAction.clear]

theorem dropWhile_nl_repl (k : Nat) (v : List Char) (hv : headNl v = false) :
    List.dropWhile (fun x => x == '\n') (List.replicate k '\n' ++ v) = v := by
  induction k with
  | zero =>
    cases v with
    | nil => rfl
    | cons c rest =>
      simp only [headNl] at hv
      simp [List.dropWhile_cons, hv]
  | succ m ih =>
    simpa [List.replicate_succ, List.dropWhile_cons] using ih

theorem collapseFirst_of_noDouble (s : List Char) (h : hasDoubleNl s = false) :
    collapseFirst s = s := by
  induction s with
  | nil => rfl
  | cons c tail ih =>
    cases tail with
    | nil => rfl
    | cons c2 rest =>
      simp only [hasDoubleNl, Bool.or_eq_false_iff] at h
      simp [collapseFirst, h.1, ih h.2]

theorem collapseFirst_double (rest : List Char) :
    collapseFirst ('\n' :: '\n' :: rest) =
      '\n' :: '\n' :: rest.dropWhile (fun x => x == '\n') := by
  simp [collapseFirst]

theorem collapseFirst_cons_ne (c c2 : Char) (rest : List Char)
    (h : (c == '\n' && c2 == '\n') = false) :
    collapseFirst (c :: c2 :: rest) = c :: collapseFirst (c2 :: rest) := by
  simp [collapseFirst, h]

theorem collapseFirst_first_run (u v : List Char) (k : Nat)
    (hu : hasDoubleNl u = false) (hue : endsNl u = false) (hv : headNl v = false) :
    collapseFirst (u ++ ('\n' :: '\n' :: List.replicate k '\n') ++ v) =
      u ++ '\n' :: '\n' :: v := by
  induction u with
  | nil =>
    simp only [List.nil_append, List.cons_append]
    rw [collapseFirst_double, dropWhile_nl_repl k v hv]
  | cons c tail ih =>
    cases tail with
    | nil =>
      simp only [endsNl] at hue
      have h0 := ih rfl rfl
      simp only [List.nil_append, List.cons_append] at h0
      simp only [List.cons_append, List.nil_append]
      rw [collapseFirst_cons_ne _ _ _ (by simp [hue]), h0]
    | cons c2 rest2 =>
      simp only [hasDoubleNl, Bool.or_eq_false_iff] at hu
      have hue2 : endsNl (c2 :: rest2) = false := hue
      have h0 := ih hu.2 hue2
      simp only [List.cons_append] at h0 ⊢
      rw [collapseFirst_cons_ne _ _ _ hu.1, h0]

/-- C1: corrected.  The formatter does not collapse every run of two or
more newlines: the regex stage uses a first-match replacement, so only the
first such run is collapsed to one blank line and every later run is left
unchanged (the counterexample shows adjacent blank lines surviving in the
output).  This theorem states the corrected behaviour of the collapse
stage of `Slide.formatted_content`: a text with no adjacent newlines is
unchanged, and in a text whose first run of two or more newlines occurs
after `u`, exactly that run becomes two newlines while the remainder `v`
is untouched. -/
theorem C1_amended :
    (∀ s : List Char, hasDoubleNl s = false → collapseFirst s = s) ∧
    (∀ (u v : List Char) (k : Nat), hasDoubleNl u = false → endsNl u = false →
        headNl v = false →
        collapseFirst (u ++ ('\n' :: '\n' :: List.replicate k '\n') ++ v) =
          u ++ '\n' :: '\n' :: v) :=
  ⟨collapseFirst_of_noDouble, collapseFirst_first_run⟩

theorem C1_witness :
    collapseFirst (chs ("a") ++ ('\n' :: '\n' :: List.replicate 1 '\n') ++ chs ("b")) =
      chs ("a") ++ '\n' :: '\n' :: chs ("b") :=
  C1_amended.2 (chs ("a")) (chs ("b")) 1 (by decide) (by decide) (by decide)

/-- C1: counterexample.  On the slide content consisting of the lines
Foo, two empty lines, Bar, two empty lines, Baz, the formatted output
keeps two adjacent blank lines (positions three and four): only the first
blank-line run was collapsed, refuting the claim that no two blank lines
are ever adjacent after formatting. -/
theorem C1_counterexample :
    Slide.formatted_content ⟨[], [chs ("Foo"), [], [], chs ("Bar"), [], [], chs ("Baz")]⟩ =
      [StyledLine.plain (chs ("Foo")), StyledLine.plain [], StyledLine.plain (chs ("Bar")),
        StyledLine.plain [], StyledLine.plain [], StyledLine.plain (chs ("Baz"))] ∧
    (Slide.formatted_content
        ⟨[], [chs ("Foo"), [], [], chs ("Bar"), [], [], chs ("Baz")]⟩)[3]? =
      some (StyledLine.plain []) ∧
    (Slide.formatted_content
        ⟨[], [chs ("Foo"), [], [], chs ("Bar"), [], [], chs ("Baz")]⟩)[4]? =
      some (StyledLine.plain []) :=
  ⟨by decide, by decide, by decide⟩

/-- C4: corrected.  The heading check of the classifier runs on the raw
line, without trimming: a line that itself starts with the double hash is
classified as a heading and rendered verbatim, but a line with leading
whitespace before the double hash is not (it falls through to plain). -/
theorem C4_amended :
    (∀ (line : List Char) (src : Bool), List.isPrefixOf (chs ("##")) line = true →
        classifyLine line src = (some (StyledLine.heading line), src)) ∧
    classifyLine (chs (" ## x")) false =
      (some (StyledLine.plain (chs (" ## x"))), false) := by
  constructor
  · intro line src h
    simp [classifyLine, h]
  · decide

theorem C4_witness :
    classifyLine (chs ("## x")) true = (some (StyledLine.heading (chs ("## x"))), true) :=
  C4_amended.1 (chs ("## x")) true (by decide)

/-- C4: counterexample.  In a slide whose second content line has leading
whitespace before the double hash, the formatter classifies that line as
plain, not as a heading, refuting the claim that the trimmed start is what
is checked. -/
theorem C4_counterexample :
    Slide.formatted_content ⟨[], [chs ("a"), chs ("  ## x")]⟩ =
      [StyledLine.plain (chs ("a")), StyledLine.plain (chs ("  ## x"))] ∧
    StyledLine.plain (chs ("  ## x")) ≠ StyledLine.heading (chs ("  ## x")) :=
  ⟨by decide, by decide⟩

theorem isPrefixOf_cons_ex {a : Char} {ps l : List Char}
    (h : List.isPrefixOf (a :: ps) l = true) : ∃ t, l = a :: t := by
  cases l with
  | nil => simp [List.isPrefixOf] at h
  | cons x xs =>
    simp only [List.isPrefixOf, Bool.and_eq_true, beq_iff_eq] at h
    exact ⟨xs, by rw [h.1]⟩

theorem trimRight_decomp (l : List Char) :
    l = trimRight l ++ (l.reverse.takeWhile isWs).reverse := by
  have hsplit : List.takeWhile isWs l.reverse ++ List.dropWhile isWs l.reverse = l.reverse :=
    List.takeWhile_append_dropWhile isWs l.reverse
  calc l = (l.reverse).reverse := (List.reverse_reverse l).symm
    _ = (List.takeWhile isWs l.reverse ++ List.dropWhile isWs l.reverse).reverse := by
        rw [hsplit]
    _ = (List.dropWhile isWs l.reverse).reverse ++ (List.takeWhile isWs l.reverse).reverse := by
        rw [List.reverse_append]
    _ = trimRight l ++ (l.reverse.takeWhile isWs).reverse := rfl

/-- C9: confirmed.  Any line whose trimmed end starts with the triple
backtick toggles the fenced-code flag and produces no output line (the
earlier heading and bullet checks can never fire on such a line, since it
must itself start with a backtick); and the three-line content fence,
code, fence formats to exactly one code line, the raw text padded with one
space on each side, with no lines for the fence delimiters. -/
theorem C9_theorem :
    (∀ (line : List Char) (src : Bool),
        List.isPrefixOf (chs ("```")) (trimRight line) = true →
        classifyLine line src = (none, !src)) ∧
    Slide.formatted_content ⟨[], [chs ("```"), chs ("code here"), chs ("```")]⟩ =
      [StyledLine.code (chs (" code here "))] := by
  constructor
  · intro line src h
    have h' := h
    have hfence : chs ("```") = Char.ofNat 96 :: Char.ofNat 96 :: [Char.ofNat 96] := by
      decide
    rw [hfence] at h'
    obtain ⟨t, ht⟩ := isPrefixOf_cons_ex h'
    have hline : line = Char.ofNat 96 :: (t ++ (line.reverse.takeWhile isWs).reverse) := by
      conv_lhs => rw [trimRight_decomp line]
      rw [ht, List.cons_append]
    have hhash : List.isPrefixOf (chs ("##")) line = false := by
      rw [hline]
      have h2 : chs ("##") = '#' :: ['#'] := by decide
      have h3 : ('#' == Char.ofNat 96) = false := by decide
      rw [h2]
      simp [List.isPrefixOf, h3]
    have htrim : trim line = Char.ofNat 96 :: t := by
      unfold trim trimLeft
      rw [← ht]
      rw [ht]
      have h4 : isWs (Char.ofNat 96) = false := by decide
      simp [List.dropWhile_cons, h4]
    have hbul : List.isPrefixOf (chs ("* ")) (trim line) = false := by
      rw [htrim]
      have h2 : chs ("* ") = '*' :: [' '] := by decide
      have h3 : ('*' == Char.ofNat 96) = false := by decide
      rw [h2]
      simp [List.isPrefixOf, h3]
    simp [classifyLine, hhash, hbul, h]
  · decide

theorem C9_witness : classifyLine (chs ("```rust")) false = (none, true) :=
  C9_theorem.1 (chs ("```rust")) false (by decide)

/-- C6: corrected.  Formatting is a pure deterministic function of the
slide's content alone (two slides with the same content format the same,
whatever their titles), but it is not idempotent: re-feeding the text of
the formatted output as raw content can collapse blank lines further, as
the counterexample shows. -/
theorem C6_amended (s1 s2 : Slide) (h : s1.content = s2.content) :
    s1.formatted_content = s2.formatted_content := by
  unfold Slide.formatted_content
  rw [h]

theorem C6_witness :
    Slide.formatted_content ⟨chs ("A"), [chs ("x")]⟩ =
      Slide.formatted_content ⟨chs ("B"), [chs ("x")]⟩ :=
  C6_amended ⟨chs ("A"), [chs ("x")]⟩ ⟨chs ("B"), [chs ("x")]⟩ rfl

/-- C6: counterexample.  For the content whose lines are a single space,
an empty line, the line a, two empty lines and the line b, the single
first-match collapse is spent on the blank run that the final trim then
removes, so the formatted output still has two adjacent blank lines;
formatting that output's text again collapses them, so the second
formatting pass differs from the first: the formatter is not idempotent. -/
theorem C6_counterexample :
    Slide.formatted_content
        ⟨[], (Slide.formatted_content
            ⟨[], [chs (" "), [], chs ("a"), [], [], chs ("b")]⟩).map textOf⟩ ≠
      Slide.formatted_content ⟨[], [chs (" "), [], chs ("a"), [], [], chs ("b")]⟩ := by
  decide

theorem navStep_le (n s : Nat) (e : NavEvent) (h : s ≤ n) : navStep n s e ≤ n := by
  cases e with
  | stepBack => exact le_trans (Nat.sub_le s 1) h
  | stepForward =>
    simp only [navStep]
    split <;> omega

theorem navRun_le (n : Nat) (evs : List NavEvent) : ∀ s, s ≤ n → navRun n evs s ≤ n := by
  induction evs with
  | nil => intro s h; exact h
  | cons e rest ih =>
    intro s h
    exact ih (navStep n s e) (navStep_le n s e h)

/-- C7: confirmed.  The navigation index is a saturating counter on the
closed interval from zero to the slide count: every single step from an
in-range index stays in range, any event sequence started at zero ends in
range, stepping back at zero is a no-op, and stepping forward at the slide
count is a no-op. -/
theorem C7_theorem (n : Nat) :
    (∀ (s : Nat) (e : NavEvent), s ≤ n → navStep n s e ≤ n) ∧
    (∀ evs : List NavEvent, navRun n evs 0 ≤ n) ∧
    navStep n 0 NavEvent.stepBack = 0 ∧
    navStep n n NavEvent.stepForward = n := by
  refine ⟨fun s e h => navStep_le n s e h,
    fun evs => navRun_le n evs 0 (Nat.zero_le n), rfl, ?_⟩
  simp [navStep]

theorem C7_witness : navStep 2 1 NavEvent.stepForward ≤ 2 :=
  (C7_theorem 2).1 1 NavEvent.stepForward (by decide)

theorem not_mem_append_draw (a : TermAction) (acc : List TermAction)
    (h : a ∉ acc) (hne : a ≠ TermAction.draw) : a ∉ acc ++ [TermAction.draw] := by
  intro hmem
  rcases List.mem_append.mp hmem with hx | hx
  · exact h hx
  · simp at hx
    exact hne hx

theorem runLoop_restore (n : Nat) (script : List Tick) :
    ∀ (slide : Nat) (acc : List TermAction),
      TermAction.leaveAlt ∉ acc → TermAction.disableRaw ∉ acc →
      (((runLoop n script slide acc).2 = MainResult.quitOk →
          ∃ pre, (runLoop n script slide acc).1 =
            pre ++ [TermAction.leaveAlt, TermAction.disableRaw]) ∧
        ((runLoop n script slide acc).2 ≠ MainResult.quitOk →
          TermAction.leaveAlt ∉ (runLoop n script slide acc).1 ∧
          TermAction.disableRaw ∉ (runLoop n script slide acc).1)) := by
  induction script with
  | nil =>
    intro slide acc h1 h2
    constructor
    · intro h
      simp [runLoop] at h
    · intro _
      exact ⟨h1, h2⟩
  | cons t rest ih =>
    intro slide acc h1 h2
    cases t with
    | drawFail =>
      constructor
      · intro h
        simp [runLoop] at h
      · intro _
        exact ⟨h1, h2⟩
    | pollFail =>
      constructor
      · intro h
        simp [runLoop] at h
      · intro _
        exact ⟨not_mem_append_draw _ _ h1 (by decide),
          not_mem_append_draw _ _ h2 (by decide)⟩
    | noEvent =>
      exact ih slide (acc ++ [TermAction.draw])
        (not_mem_append_draw _ _ h1 (by decide))
        (not_mem_append_draw _ _ h2 (by decide))
    | key k =>
      cases k with
      | esc =>
        constructor
        · intro _
          refine ⟨acc ++ [TermAction.draw], ?_⟩
          simp [runLoop]
        · intro h
          exact absurd rfl h
      | qKey =>
        constructor
        · intro _
          refine ⟨acc ++ [TermAction.draw], ?_⟩
          simp [runLoop]
        · intro h
          exact absurd rfl h
      | leftArrow =>
        exact ih (navStep n slide NavEvent.stepBack) (acc ++ [TermAction.draw])
          (not_mem_append_draw _ _ h1 (by decide))
          (not_mem_append_draw _ _ h2 (by decide))
      | rightArrow =>
        exact ih (navStep n slide NavEvent.stepForward) (acc ++ [TermAction.draw])
          (not_mem_append_draw _ _ h1 (by decide))
          (not_mem_append_draw _ _ h2 (by decide))
      | other =>
        exact ih slide (acc ++ [TermAction.draw])
          (not_mem_append_draw _ _ h1 (by decide))
          (not_mem_append_draw _ _ h2 (by decide))

/-- C2: corrected.  Terminal restoration happens only on the normal quit
path: when the loop ends through a quit key, the action trace ends with
leaving the alternate screen and disabling raw mode, but when a draw or
poll failure propagates the error out of the loop, neither restoration
action ever appears in the trace — the claim that every exit path
restores the terminal fails on the error paths. -/
theorem C2_amended (n : Nat) (script : List Tick) :
    ((runMain n script).2 = MainResult.quitOk →
      ∃ pre, (runMain n script).1 =
        pre ++ [TermAction.leaveAlt, TermAction.disableRaw]) ∧
    ((runMain n script).2 ≠ MainResult.quitOk →
      TermAction.leaveAlt ∉ (runMain n script).1 ∧
      TermAction.disableRaw ∉ (runMain n script).1) :=
  runLoop_restore n script 0
    [TermAction.enterAlt, TermAction.enableRaw, TermAction.clear]
    (by decide) (by decide)

theorem C2_witness :
    ∃ pre, (runMain 1 [Tick.key Key.esc]).1 =
      pre ++ [TermAction.leaveAlt, TermAction.disableRaw] :=
  (C2_amended 1 [Tick.key Key.esc]).1 rfl

/-- C2: counterexample.  A session whose first draw call fails ends with
the error propagating and a trace that entered the alternate screen and
enabled raw mode but never released either: restoration is skipped on
this exit path, refuting the release-on-every-exit-path claim. -/
theorem C2_counterexample :
    runMain 1 [Tick.drawFail] =
      ([TermAction.enterAlt, TermAction.enableRaw, TermAction.clear],
        MainResult.errExit) ∧
    TermAction.leaveAlt ∉ (runMain 1 [Tick.drawFail]).1 ∧
    TermAction.disableRaw ∉ (runMain 1 [Tick.drawFail]).1 :=
  ⟨by decide, by decide, by decide⟩

theorem Presentation_read_title (doc : List (List Char)) :
    (Presentation.read doc).title =
      (readLines 0 doc ⟨[], [], [], [], [], []⟩).title := rfl

theorem Presentation_read_author (doc : List (List Char)) :
    (Presentation.read doc).author =
      (readLines 0 doc ⟨[], [], [], [], [], []⟩).author := rfl

theorem Presentation_read_date (doc : List (List Char)) :
    (Presentation.read doc).date =
      (readLines 0 doc ⟨[], [], [], [], [], []⟩).date := rfl

theorem Presentation_read_slides (doc : List (List Char)) :
    (Presentation.read doc).slides =
      (readLines 0 doc ⟨[], [], [], [], [], []⟩).slides ++
        [⟨(readLines 0 doc ⟨[], [], [], [], [], []⟩).slide_title,
          (readLines 0 doc ⟨[], [], [], [], [], []⟩).slide_content⟩] := rfl

theorem readStep_title (i : Nat) (l : List Char) (st : ReadState) (h : i ≠ 0) :
    (readStep i l st).title = st.title := by
  unfold readStep
  split
  · rename_i hc
    rw [Bool.and_eq_true] at hc
    exact absurd (beq_iff_eq.mp hc.1) h
  · split
    · rfl
    · split
      · rfl
      · split
        · split
          · rfl
          · rfl
        · rfl

theorem readStep_author (i : Nat) (l : List Char) (st : ReadState) (h : i ≠ 1) :
    (readStep i l st).author = st.author := by
  unfold readStep
  split
  · rfl
  · split
    · rename_i hc
      rw [Bool.and_eq_true] at hc
      exact absurd (beq_iff_eq.mp hc.1) h
    · split
      · rfl
      · split
        · split
          · rfl
          · rfl
        · rfl

theorem readStep_date (i : Nat) (l : List Char) (st : ReadState) (h : i ≠ 2) :
    (readStep i l st).date = st.date := by
  unfold readStep
  split
  · rfl
  · split
    · rfl
    · split
      · rename_i hc
        rw [Bool.and_eq_true] at hc
        exact absurd (beq_iff_eq.mp hc.1) h
      · split
        · split
          · rfl
          · rfl
        · rfl

theorem readLines_title (tail : List (List Char)) :
    ∀ (i : Nat) (st : ReadState), 1 ≤ i → (readLines i tail st).title = st.title := by
  induction tail with
  | nil => intro _ _ _; rfl
  | cons l rest ih =>
    intro i st h
    calc (readLines i (l :: rest) st).title
        = (readStep i l st).title := ih (i + 1) (readStep i l st) (by omega)
      _ = st.title := readStep_title i l st (by omega)

theorem readLines_author (tail : List (List Char)) :
    ∀ (i : Nat) (st : ReadState), 2 ≤ i → (readLines i tail st).author = st.author := by
  induction tail with
  | nil => intro _ _ _; rfl
  | cons l rest ih =>
    intro i st h
    calc (readLines i (l :: rest) st).author
        = (readStep i l st).author := ih (i + 1) (readStep i l st) (by omega)
      _ = st.author := readStep_author i l st (by omega)

theorem readLines_date (tail : List (List Char)) :
    ∀ (i : Nat) (st : ReadState), 3 ≤ i → (readLines i tail st).date = st.date := by
  induction tail with
  | nil => intro _ _ _; rfl
  | cons l rest ih =>
    intro i st h
    calc (readLines i (l :: rest) st).date
        = (readStep i l st).date := ih (i + 1) (readStep i l st) (by omega)
      _ = st.date := readStep_date i l st (by omega)

/-- C3: corrected.  The metadata lines are positional (document lines
zero, one and two, each when it starts with a percent sign), but the
stored value removes every occurrence of the percent-space pattern from
the line, not only the first: the substitution used by the program
replaces all occurrences.  The counterexample shows a later occurrence
being removed as well. -/
theorem C3_amended (l0 l1 l2 : List Char) (rest : List (List Char))
    (h0 : leadPercent l0 = true) (h1 : leadPercent l1 = true)
    (h2 : leadPercent l2 = true) :
    (Presentation.read (l0 :: l1 :: l2 :: rest)).title = removeAll2 '%' ' ' l0 ∧
    (Presentation.read (l0 :: l1 :: l2 :: rest)).author = removeAll2 '%' ' ' l1 ∧
    (Presentation.read (l0 :: l1 :: l2 :: rest)).date = removeAll2 '%' ' ' l2 := by
  have s0 : readStep 0 l0 (⟨[], [], [], [], [], []⟩ : ReadState) =
      ⟨removeAll2 '%' ' ' l0, [], [], [], [], []⟩ := by
    simp [readStep, h0]
  have s1 : readStep 1 l1 (⟨removeAll2 '%' ' ' l0, [], [], [], [], []⟩ : ReadState) =
      ⟨removeAll2 '%' ' ' l0, removeAll2 '%' ' ' l1, [], [], [], []⟩ := by
    simp [readStep, h1]
  have s2 : readStep 2 l2
      (⟨removeAll2 '%' ' ' l0, removeAll2 '%' ' ' l1, [], [], [], []⟩ : ReadState) =
      ⟨removeAll2 '%' ' ' l0, removeAll2 '%' ' ' l1, removeAll2 '%' ' ' l2,
        [], [], []⟩ := by
    simp [readStep, h2]
  have e : readLines 0 (l0 :: l1 :: l2 :: rest) (⟨[], [], [], [], [], []⟩ : ReadState) =
      readLines 3 rest
        (⟨removeAll2 '%' ' ' l0, removeAll2 '%' ' ' l1, removeAll2 '%' ' ' l2,
          [], [], []⟩ : ReadState) := by
    show readLines 3 rest
        (readStep 2 l2 (readStep 1 l1 (readStep 0 l0 ⟨[], [], [], [], [], []⟩))) = _
    rw [s0, s1, s2]
  refine ⟨?_, ?_, ?_⟩
  · rw [Presentation_read_title, e, readLines_title rest 3 _ (by omega)]
  · rw [Presentation_read_author, e, readLines_author rest 3 _ (by omega)]
  · rw [Presentation_read_date, e, readLines_date rest 3 _ (by omega)]

theorem C3_witness :
    (Presentation.read [chs ("% T"), chs ("% A"), chs ("% D")]).title =
      removeAll2 '%' ' ' (chs ("% T")) ∧
    (Presentation.read [chs ("% T"), chs ("% A"), chs ("% D")]).author =
      removeAll2 '%' ' ' (chs ("% A")) ∧
    (Presentation.read [chs ("% T"), chs ("% A"), chs ("% D")]).date =
      removeAll2 '%' ' ' (chs ("% D")) :=
  C3_amended (chs ("% T")) (chs ("% A")) (chs ("% D")) []
    (by decide) (by decide) (by decide)

/-- C3: counterexample.  For the single-line document whose line zero is
percent, space, A, space, percent, space, B, the stored title removes
both occurrences of the percent-space pattern, not only the first: the
result differs from the value the claim predicts. -/
theorem C3_counterexample :
    (Presentation.read [chs ("% A % B")]).title = chs ("A B") ∧
    chs ("A B") ≠ chs ("A % B") :=
  ⟨by decide, by decide⟩

theorem removeAll2_id (a b : Char) (s : List Char) (h : containsPat2 a b s = false) :
    removeAll2 a b s = s := by
  induction s with
  | nil => rfl
  | cons x tail ih =>
    cases tail with
    | nil => rfl
    | cons y rest =>
      simp only [containsPat2, Bool.or_eq_false_iff] at h
      simp [removeAll2, h.1, ih h.2]

/-- C10: corrected.  A first line that starts with a percent sign but not
with percent-space is still taken as the title slot, and it is stored with
every occurrence of the percent-space pattern removed; it is stored
completely unchanged, leading percent included, exactly when the line
contains no such occurrence at all (the counterexample shows a line of
this shape that still loses a later percent-space occurrence). -/
theorem C10_amended (l0 : List Char) (rest : List (List Char))
    (h : leadPercent l0 = true) (hnc : containsPat2 '%' ' ' l0 = false) :
    (Presentation.read (l0 :: rest)).title = l0 := by
  rw [Presentation_read_title]
  have e : readLines 0 (l0 :: rest) (⟨[], [], [], [], [], []⟩ : ReadState) =
      readLines 1 rest (readStep 0 l0 ⟨[], [], [], [], [], []⟩) := rfl
  rw [e, readLines_title rest 1 _ (by omega)]
  simp [readStep, h, removeAll2_id '%' ' ' l0 hnc]

theorem C10_witness : (Presentation.read [chs ("%Title")]).title = chs ("%Title") :=
  C10_amended (chs ("%Title")) [] (by decide) (by decide)

/-- C10: counterexample.  The first line starts with a percent sign but
not with percent-space, yet it is not stored unchanged: the percent-space
occurrence later in the line is removed, refuting the claim that such a
line is stored completely unchanged. -/
theorem C10_counterexample :
    (Presentation.read [chs ("%Title % x")]).title = chs ("%Title x") ∧
    chs ("%Title x") ≠ chs ("%Title % x") :=
  ⟨by decide, by decide⟩

theorem readLines_noheader (doc : List (List Char)) :
    ∀ (i : Nat) (st : ReadState), (∀ l ∈ doc, isHeader l = false) →
      (readLines i doc st).slides = st.slides ∧
      (readLines i doc st).slide_title = st.slide_title ∧
      (readLines i doc st).slide_content = st.slide_content ++ nonMetaFrom i doc := by
  induction doc with
  | nil =>
    intro i st _
    exact ⟨rfl, rfl, by simp [readLines, nonMetaFrom]⟩
  | cons l rest ih =>
    intro i st hh
    have hl : isHeader l = false := hh l (List.mem_cons_self l rest)
    have hrest : ∀ x ∈ rest, isHeader x = false :=
      fun x hx => hh x (List.mem_cons_of_mem l hx)
    have key := ih (i + 1) (readStep i l st) hrest
    by_cases hm : i < 3 ∧ leadPercent l = true
    · have hstep : (readStep i l st).slides = st.slides ∧
          (readStep i l st).slide_title = st.slide_title ∧
          (readStep i l st).slide_content = st.slide_content := by
        obtain ⟨hi, hp⟩ := hm
        interval_cases i
        · exact ⟨by simp [readStep, hp], by simp [readStep, hp], by simp [readStep, hp]⟩
        · exact ⟨by simp [readStep, hp], by simp [readStep, hp], by simp [readStep, hp]⟩
        · exact ⟨by simp [readStep, hp], by simp [readStep, hp], by simp [readStep, hp]⟩
      have hnm : nonMetaFrom i (l :: rest) = nonMetaFrom (i + 1) rest := by
        simp [nonMetaFrom, hm.1, hm.2]
      refine ⟨?_, ?_, ?_⟩
      · exact hstep.1 ▸ key.1
      · exact hstep.2.1 ▸ key.2.1
      · rw [hnm]
        show (readLines (i + 1) rest (readStep i l st)).slide_content = _
        rw [key.2.2, hstep.2.2]
    · have hstep : (readStep i l st).slides = st.slides ∧
          (readStep i l st).slide_title = st.slide_title ∧
          (readStep i l st).slide_content = st.slide_content ++ [l] := by
        by_cases hp : leadPercent l = true
        · have hi : 3 ≤ i := by
            rcases Nat.lt_or_ge i 3 with hlt | hge
            · exact absurd ⟨hlt, hp⟩ hm
            · exact hge
          obtain ⟨m, rfl⟩ : ∃ m, i = m + 3 := ⟨i - 3, by omega⟩
          have e0 : (m + 3 == 0) = false := rfl
          have e1 : (m + 3 == 1) = false := rfl
          have e2 : (m + 3 == 2) = false := rfl
          exact ⟨by simp [readStep, e0, e1, e2, hl], by simp [readStep, e0, e1, e2, hl],
            by simp [readStep, e0, e1, e2, hl]⟩
        · have hp' : leadPercent l = false := by
            cases hq : leadPercent l
            · rfl
            · exact absurd hq hp
          exact ⟨by simp [readStep, hp', hl], by simp [readStep, hp', hl],
            by simp [readStep, hp', hl]⟩
      have hnm : nonMetaFrom i (l :: rest) = l :: nonMetaFrom (i + 1) rest := by
        by_cases hp : leadPercent l = true
        · have hi : ¬ i < 3 := by
            intro hlt
            exact hm ⟨hlt, hp⟩
          simp [nonMetaFrom, hi]
        · have hp' : leadPercent l = false := by
            cases hq : leadPercent l
            · rfl
            · exact absurd hq hp
          simp [nonMetaFrom, hp']
      refine ⟨?_, ?_, ?_⟩
      · exact hstep.1 ▸ key.1
      · exact hstep.2.1 ▸ key.2.1
      · rw [hnm]
        show (readLines (i + 1) rest (readStep i l st)).slide_content = _
        rw [key.2.2, hstep.2.2, List.append_assoc]
        rfl

/-- C8: confirmed.  Every parsed document yields at least one slide, and
a document with no slide-header line yields exactly one slide whose title
is empty and whose content is every non-metadata line of the document in
source order. -/
theorem C8_theorem (doc : List (List Char)) :
    1 ≤ (Presentation.read doc).slides.length ∧
    ((∀ l ∈ doc, isHeader l = false) →
      (Presentation.read doc).slides = [⟨[], nonMetaFrom 0 doc⟩]) := by
  constructor
  · rw [Presentation_read_slides]
    simp
  · intro hh
    rw [Presentation_read_slides]
    have key := readLines_noheader doc 0 ⟨[], [], [], [], [], []⟩ hh
    rw [key.1, key.2.1, key.2.2]
    simp

theorem C8_witness :
    (Presentation.read [chs ("% T"), chs ("hello")]).slides =
      [⟨[], nonMetaFrom 0 [chs ("% T"), chs ("hello")]⟩] :=
  (C8_theorem [chs ("% T"), chs ("hello")]).2 (by decide)

theorem readStep_ge3 (i : Nat) (l : List Char) (st : ReadState) (h : 3 ≤ i) :
    readStep i l st = processStep l st := by
  obtain ⟨m, rfl⟩ : ∃ m, i = m + 3 := ⟨i - 3, by omega⟩
  have e0 : (m + 3 == 0) = false := rfl
  have e1 : (m + 3 == 1) = false := rfl
  have e2 : (m + 3 == 2) = false := rfl
  simp [readStep, processStep, e0, e1, e2]

theorem readStep_nopercent (i : Nat) (l : List Char) (st : ReadState)
    (h : leadPercent l = false) : readStep i l st = processStep l st := by
  simp [readStep, processStep, h]

theorem readLines_eq_process (doc : List (List Char)) :
    ∀ (i : Nat) (st : ReadState),
      (∀ l ∈ doc.take (3 - i), leadPercent l = false) →
      readLines i doc st = processLines doc st := by
  induction doc with
  | nil => intro i st _; rfl
  | cons l rest ih =>
    intro i st h
    have hstep : readStep i l st = processStep l st := by
      by_cases hi : 3 ≤ i
      · exact readStep_ge3 i l st hi
      · have hmem : l ∈ (l :: rest).take (3 - i) := by
          obtain ⟨m, hm⟩ : ∃ m, 3 - i = m + 1 := ⟨3 - i - 1, by omega⟩
          rw [hm, List.take_succ_cons]
          exact List.mem_cons_self _ _
        exact readStep_nopercent i l st (h l hmem)
    show readLines (i + 1) rest (readStep i l st) = processLines rest (processStep l st)
    rw [hstep]
    apply ih (i + 1)
    intro x hx
    apply h
    rcases Nat.lt_or_ge i 3 with hlt | hge
    · have hm : 3 - i = (3 - (i + 1)) + 1 := by omega
      rw [hm, List.take_succ_cons]
      exact List.mem_cons_of_mem _ hx
    · have h0 : 3 - (i + 1) = 0 := by omega
      rw [h0] at hx
      simp at hx

theorem processLines_append (a b : List (List Char)) :
    ∀ st, processLines (a ++ b) st = processLines b (processLines a st) := by
  induction a with
  | nil => intro st; rfl
  | cons l rest ih => intro st; exact ih (processStep l st)

theorem processStep_body (l : List Char) (st : ReadState) (h : isHeader l = false) :
    processStep l st = { st with slide_content := st.slide_content ++ [l] } := by
  simp [processStep, h]

theorem processLines_body (body : List (List Char)) :
    ∀ st, (∀ l ∈ body, isHeader l = false) →
      processLines body st = { st with slide_content := st.slide_content ++ body } := by
  induction body with
  | nil => intro st _; simp [processLines]
  | cons l rest ih =>
    intro st hh
    have hl : isHeader l = false := hh l (List.mem_cons_self _ _)
    show processLines rest (processStep l st) = _
    rw [processStep_body l st hl, ih _ (fun x hx => hh x (List.mem_cons_of_mem _ hx))]
    simp

theorem isHeader_not_empty (l : List Char) (h : isHeader l = true) :
    l.isEmpty = false := by
  cases l with
  | nil => exact absurd h (by decide)
  | cons c rest => rfl

theorem processBlocks (bs : List (List Char × List (List Char))) :
    ∀ (T A D : List Char) (sl : List Slide) (t : List Char) (c : List (List Char)),
      t.isEmpty = false →
      (∀ x ∈ bs, isHeader x.1 = true ∧ ∀ l ∈ x.2, isHeader l = false) →
      (processLines (blocksLines bs) ⟨T, A, D, sl, t, c⟩).slides ++
          [⟨(processLines (blocksLines bs) ⟨T, A, D, sl, t, c⟩).slide_title,
            (processLines (blocksLines bs) ⟨T, A, D, sl, t, c⟩).slide_content⟩] =
        sl ++ slidesOf t c bs := by
  induction bs with
  | nil =>
    intro T A D sl t c ht hb
    simp [blocksLines, processLines, slidesOf]
  | cons b rest ih =>
    intro T A D sl t c ht hb
    have hbhead := hb b (List.mem_cons_self _ _)
    have hbrest : ∀ x ∈ rest, isHeader x.1 = true ∧ ∀ l ∈ x.2, isHeader l = false :=
      fun x hx => hb x (List.mem_cons_of_mem _ hx)
    have e1 : blocksLines (b :: rest) = b.1 :: (b.2 ++ blocksLines rest) := by
      simp [blocksLines]
    have e2 : processLines (blocksLines (b :: rest)) (⟨T, A, D, sl, t, c⟩ : ReadState) =
        processLines (blocksLines rest) (⟨T, A, D, sl ++ [⟨t, c⟩], b.1, b.2⟩ : ReadState) := by
      rw [e1]
      show processLines (b.2 ++ blocksLines rest)
          (processStep b.1 ⟨T, A, D, sl, t, c⟩) = _
      have hs : processStep b.1 (⟨T, A, D, sl, t, c⟩ : ReadState) =
          (⟨T, A, D, sl ++ [⟨t, c⟩], b.1, []⟩ : ReadState) := by
        simp [processStep, hbhead.1, ht]
      rw [hs, processLines_append, processLines_body b.2 _ hbhead.2]
      simp
    have h3 := ih T A D (sl ++ [⟨t, c⟩]) b.1 b.2 (isHeader_not_empty b.1 hbhead.1) hbrest
    rw [e2, h3]
    simp [slidesOf, List.append_assoc]

theorem countHeaders_cons_false (l : List Char) (rest : List (List Char))
    (h : isHeader l = false) : countHeaders (l :: rest) = countHeaders rest := by
  simp [countHeaders, List.filter_cons, h]

theorem countHeaders_cons_true (l : List Char) (rest : List (List Char))
    (h : isHeader l = true) : countHeaders (l :: rest) = countHeaders rest + 1 := by
  simp [countHeaders, List.filter_cons, h]

theorem countHeaders_append (a b : List (List Char)) :
    countHeaders (a ++ b) = countHeaders a + countHeaders b := by
  simp [countHeaders, List.filter_append]

theorem countHeaders_noheads (doc : List (List Char))
    (h : ∀ l ∈ doc, isHeader l = false) : countHeaders doc = 0 := by
  induction doc with
  | nil => rfl
  | cons l rest ih =>
    rw [countHeaders_cons_false l rest (h l (List.mem_cons_self _ _))]
    exact ih (fun x hx => h x (List.mem_cons_of_mem _ hx))

theorem countHeaders_blocks (bs : List (List Char × List (List Char)))
    (h : ∀ x ∈ bs, isHeader x.1 = true ∧ ∀ l ∈ x.2, isHeader l = false) :
    countHeaders (blocksLines bs) = bs.length := by
  induction bs with
  | nil => rfl
  | cons b rest ih =>
    have hb := h b (List.mem_cons_self _ _)
    have e1 : blocksLines (b :: rest) = b.1 :: (b.2 ++ blocksLines rest) := by
      simp [blocksLines]
    rw [e1, countHeaders_cons_true _ _ hb.1, countHeaders_append,
      countHeaders_noheads b.2 hb.2,
      ih (fun x hx => h x (List.mem_cons_of_mem _ hx))]
    simp

theorem slidesOf_length (bs : List (List Char × List (List Char))) :
    ∀ (t : List Char) (c : List (List Char)), (slidesOf t c bs).length = bs.length + 1 := by
  induction bs with
  | nil => intro t c; rfl
  | cons b rest ih =>
    intro t c
    simp [slidesOf, ih b.1 b.2]

/-- C5: corrected.  For a document made of a block of non-header lines
followed by one or more header/body blocks (its first three lines not
percent-prefixed, so no metadata is consumed), the slide count equals the
number of header lines, and each slide's content is the lines strictly
between its header and the next header or the end — except the first
slide, whose content additionally begins with all the non-header lines
that precede the first header: those lines are not dropped but leak into
the first slide, refuting the claim that no other lines appear. -/
theorem C5_amended (pre : List (List Char)) (b : List Char × List (List Char))
    (bs : List (List Char × List (List Char)))
    (hpre : ∀ l ∈ pre, isHeader l = false)
    (hmeta : ∀ l ∈ List.take 3 (pre ++ blocksLines (b :: bs)), leadPercent l = false)
    (hb : ∀ x ∈ b :: bs, isHeader x.1 = true ∧ ∀ l ∈ x.2, isHeader l = false) :
    (Presentation.read (pre ++ blocksLines (b :: bs))).slides =
      slidesOf b.1 (pre ++ b.2) bs ∧
    (Presentation.read (pre ++ blocksLines (b :: bs))).slides.length =
      countHeaders (pre ++ blocksLines (b :: bs)) := by
  have hbhead := hb b (List.mem_cons_self _ _)
  have hbrest : ∀ x ∈ bs, isHeader x.1 = true ∧ ∀ l ∈ x.2, isHeader l = false :=
    fun x hx => hb x (List.mem_cons_of_mem _ hx)
  have main : (Presentation.read (pre ++ blocksLines (b :: bs))).slides =
      slidesOf b.1 (pre ++ b.2) bs := by
    rw [Presentation_read_slides]
    rw [readLines_eq_process _ 0 _ (by simpa using hmeta)]
    rw [processLines_append]
    have p1 : processLines pre (⟨[], [], [], [], [], []⟩ : ReadState) =
        (⟨[], [], [], [], [], pre⟩ : ReadState) := by
      rw [processLines_body pre _ hpre]
      simp
    rw [p1]
    have p2 : processLines (blocksLines (b :: bs)) (⟨[], [], [], [], [], pre⟩ : ReadState) =
        processLines (blocksLines bs)
          (⟨[], [], [], [], b.1, pre ++ b.2⟩ : ReadState) := by
      have e1 : blocksLines (b :: bs) = b.1 :: (b.2 ++ blocksLines bs) := by
        simp [blocksLines]
      rw [e1]
      show processLines (b.2 ++ blocksLines bs)
          (processStep b.1 ⟨[], [], [], [], [], pre⟩) = _
      have hs : processStep b.1 (⟨[], [], [], [], [], pre⟩ : ReadState) =
          (⟨[], [], [], [], b.1, pre⟩ : ReadState) := by
        simp [processStep, hbhead.1]
      rw [hs, processLines_append, processLines_body b.2 _ hbhead.2]
    rw [p2]
    have final := processBlocks bs [] [] [] [] b.1 (pre ++ b.2)
      (isHeader_not_empty b.1 hbhead.1) hbrest
    simpa using final
  refine ⟨main, ?_⟩
  rw [main, countHeaders_append, countHeaders_noheads pre hpre,
    countHeaders_blocks (b :: bs) hb, slidesOf_length]
  simp

/-- C5: counterexample.  The document intro, header, body has one header
line and the parser produces one slide, but that slide's content is the
intro line followed by the body line, not only the lines strictly between
the header and the end of the document: the pre-header line appears in the
first slide's content, refuting the claim. -/
theorem C5_counterexample :
    (Presentation.read [chs ("intro"), chs ("# One"), chs ("body")]).slides =
      [⟨chs ("# One"), [chs ("intro"), chs ("body")]⟩] ∧
    [chs ("intro"), chs ("body")] ≠ [chs ("body")] :=
  ⟨by decide, by decide⟩

theorem C5_witness :
    (Presentation.read ([chs ("intro")] ++
        blocksLines [(chs ("# One"), [chs ("body")]), (chs ("# Two"), [])])).slides =
      slidesOf (chs ("# One")) ([chs ("intro")] ++ [chs ("body")])
        [(chs ("# Two"), [])] ∧
    (Presentation.read ([chs ("intro")] ++
        blocksLines [(chs ("# One"), [chs ("body")]), (chs ("# Two"), [])])).slides.length =
      countHeaders ([chs ("intro")] ++
        blocksLines [(chs ("# One"), [chs ("body")]), (chs ("# Two"), [])]) :=
  C5_amended [chs ("intro")] (chs ("# One"), [chs ("body")]) [(chs ("# Two"), [])]
    (by decide) (by decide) (by decide)
